import Mathlib

/-!
# Verification of the hug API registry core (src/hug/api.py)

A shallow embedding of `hug/api.py`: the `API` registry object, the
`ModuleSingleton` resolution protocol, directive resolution, the startup
orchestration `_ensure_started`, the `extend` merge, and the lazily
installed `api_auto_instantiate` entry point.

Python dictionaries are embedded as association lists with
insert-or-overwrite semantics (`dput`), lookups (`dget`) returning the
binding for a key.  Python objects that only matter through their identity
and a few attributes (directive providers, startup handlers, HTTP/CLI
facets, modules) are embedded as structures carrying those attributes plus
a numeric identity where object identity matters.
-/

set_option maxHeartbeats 1000000

/-- A directive provider object: `name` models the Python attribute
`__name__` (the key under which `API.add_directive` registers it), `pid`
distinguishes distinct provider objects. -/
structure Directive where
  name : String
  pid : Nat
deriving DecidableEq

/-- A startup handler object: `hid` identifies the callable, `isAsync`
models `hug.introspect.is_coroutine`, `fails` models whether invoking the
handler raises an exception. -/
structure Handler where
  hid : Nat
  isAsync : Bool
  fails : Bool
deriving DecidableEq

/-- Lookup in a Python-dict model (`d.get(k)` / `d[k]`): the binding of the
first pair whose key is `k`.  In a well-formed dict keys are unique, so
"first" is immaterial there. -/
def dget {α : Type} : List (String × α) → String → Option α
  | [], _ => none
  | p :: rest, k => if p.1 = k then some p.2 else dget rest k

/-- Assignment in a Python-dict model (`d[k] = v`): overwrite the (in a
dict: unique) existing binding in place when the key is present, otherwise
append the new binding at the end. -/
def dput {α : Type} : List (String × α) → String → α → List (String × α)
  | [], k, v => [(k, v)]
  | p :: rest, k, v => if p.1 = k then (k, v) :: rest else p :: dput rest k v

/-- The keys of the dict model, in binding order (`d.keys()`). -/
def dictKeys {α : Type} (d : List (String × α)) : List String :=
  d.map Prod.fst

/-- The binding a Python dict comprehension leaves for key `k` after
inserting the pairs of `l` left to right: the LAST pair with key `k`
wins. -/
def lastBind {α : Type} : List (String × α) → String → Option α
  | [], _ => none
  | p :: rest, k =>
      match lastBind rest k with
      | some v => some v
      | none => if p.1 = k then some p.2 else none

/-- First-of-two option combinator: the left value when present, else the
right; used to state which binding a layered lookup resolves to. -/
def ofirst {α : Type} (x y : Option α) : Option α :=
  match x with
  | some v => some v
  | none => y

/-- Modelled from the spec: `HTTPInterfaceAPI` is defined outside
`src/hug/api.py` (only `hug/api.py` is in scope).  Per the spec the HTTP
facet owns the routing table of the network interface kind and exposes
`handlers()` (a sequence, embedded as opaque handler ids), `extend` and
`server()`. -/
structure HTTPInterfaceAPI where
  hhandlers : List Nat
deriving DecidableEq

/-- Modelled from the spec: `CLIInterfaceAPI` is defined outside
`src/hug/api.py`.  Per the spec the CLI facet is constructible from a
Registry plus an error-exit-code flag and exposes `handlers()`. -/
structure CLIInterfaceAPI where
  chandlers : List Nat
  errorExitCodes : Bool
deriving DecidableEq

/-- Modelled from the spec: the HTTP facet's `extend(http, route, base_url)`
folds the source facet's handler table into the destination facet's; the
exact path-joining semantics are an HTTP-facet concern outside this core,
so `route`/`base_url` are accepted and the handler tables are united. -/
def httpExtend (dst src : HTTPInterfaceAPI) (_route _baseUrl : String) : HTTPInterfaceAPI :=
  ⟨dst.hhandlers ++ src.hhandlers⟩

/-- The `API` object of `hug/api.py` (lines 77-181).  `__slots__` members
that may be absent (`_directives`, `_startup_handlers`, `_http`, `_cli`)
are `Option`-valued, `none` meaning the attribute was never assigned (so
that `getattr`/`hasattr` behaviour is expressible).  `moduleName` is
`self.module`, identified by the owning module's key; `instId` is an
allocation stamp standing for Python object identity. -/
structure API where
  moduleName : Option String := none
  name : String := ""
  doc : String := ""
  started : Bool := false
  cliErrorExitCodes : Bool := false
  instId : Nat := 0
  directives_ : Option (List (String × Directive)) := none
  startupHandlers_ : Option (List Handler) := none
  http_ : Option HTTPInterfaceAPI := none
  cli_ : Option CLIInterfaceAPI := none
deriving DecidableEq

/-- `getattr(self, '_directives', {})` — the instance override dict. -/
def API.overrides (a : API) : List (String × Directive) :=
  a.directives_.getD []

/-- The `startup_handlers` property (api.py 179-181):
`getattr(self, '_startup_handlers', ())`. -/
def API.startupHandlers (a : API) : List Handler :=
  a.startupHandlers_.getD []

/-- `API.add_startup_handler` (api.py 160-165): when the current sequence
is absent or empty, `self._startup_handlers` is (re)bound to a fresh empty
list, then the handler is appended. -/
def API.addStartupHandler (a : API) (h : Handler) : API :=
  let base := if a.startupHandlers.isEmpty then [] else a.startupHandlers
  { a with startupHandlers_ := some (base ++ [h]) }

/-- `API.add_directive` (api.py 102-104): registers the provider in the
instance override dict under its own `__name__`. -/
def API.addDirective (a : API) (d : Directive) : API :=
  { a with directives_ := some (dput a.overrides d.name d) }

/-- `API.directive` (api.py 98-100):
`getattr(self, '_directives', {}).get(name, hug.defaults.directives.get(name, default))`.
The process-wide catalog `hug.defaults.directives` is passed explicitly. -/
def API.directive (catalog : List (String × Directive)) (a : API)
    (name : String) (default : Directive) : Directive :=
  (dget a.overrides name).getD ((dget catalog name).getD default)

/-- `API.directives` (api.py 93-96): the dict comprehension
`{'hug_' + name: directive for name, directive in chain(catalog, overrides)}`,
embedded as inserting the prefixed pairs left to right into an empty dict. -/
def API.directives (catalog : List (String × Directive)) (a : API) :
    List (String × Directive) :=
  (((catalog ++ a.overrides).map (fun p => ("hug_" ++ p.1, p.2))).foldl
    (fun acc p => dput acc p.1 p.2) [])

/-- The generator `API.handlers` (api.py 106-111), observed to exhaustion:
`yielded` is the sequence of produced handlers and `raised = true` records
that iteration ended in an exception rather than normal completion.
`getattr(self, '_http')` and `getattr(self, '_cli')` are called with NO
default, so an unset slot raises `AttributeError`. -/
structure GenOut where
  yielded : List Nat
  raised : Bool
deriving DecidableEq

/-- `API.handlers` (api.py 106-111).  The body first evaluates
`getattr(self, '_http')` (raising when the slot was never assigned), yields
the HTTP facet's handlers when present, then evaluates
`getattr(self, '_cli')` (again raising when unset) and yields the CLI
facet's handlers. -/
def API.handlersGen (a : API) : GenOut :=
  match a.http_ with
  | none => ⟨[], true⟩
  | some h =>
      match a.cli_ with
      | none => ⟨h.hhandlers, true⟩
      | some c => ⟨h.hhandlers ++ c.chandlers, false⟩

/-- The `http` property (api.py 113-117): return the materialized facet,
or construct it on first access and cache it in the `_http` slot. -/
def API.httpProp (a : API) : HTTPInterfaceAPI × API :=
  match a.http_ with
  | some h => (h, a)
  | none =>
      let h : HTTPInterfaceAPI := ⟨[]⟩
      (h, { a with http_ := some h })

/-- The synchronous phase of `API._ensure_started` (api.py 175-177):
`for startup_handler in self.startup_handlers: if not startup_handler in
async_handlers: startup_handler(self)`.  Returns the ids of the handlers
invoked, in invocation order; `.error` models a handler raising (the trace
then holds the handlers invoked up to and including the raising one). -/
def runSyncLoop (asyncs : List Handler) : List Handler → Except (List Nat) (List Nat)
  | [] => .ok []
  | h :: rest =>
      if asyncs.contains h then runSyncLoop asyncs rest
      else if h.fails then .error [h.hid]
      else
        match runSyncLoop asyncs rest with
        | .ok t => .ok (h.hid :: t)
        | .error t => .error (h.hid :: t)

/-- `API._ensure_started` (api.py 167-177).  Returns the invocation trace
(handler ids in invocation order) or `.error` when a handler's exception
propagates, paired with the registry object afterwards.  The async group is
gathered first and modelled as invoked in registration order inside the
single `gather` (the source promises no relative order within the gather,
and no claim constrains it); when an async handler raises, all async
handlers were scheduled, and the sync loop is not reached.  The source body
assigns NO attribute of `self`, so the returned registry is the argument
unchanged — in particular `started` is never set. -/
def API.ensureStarted (a : API) : Except (List Nat) (List Nat) × API :=
  if a.started then (.ok [], a)
  else
    let hs := a.startupHandlers
    let asyncs := hs.filter (fun h => h.isAsync)
    if asyncs.isEmpty then (runSyncLoop asyncs hs, a)
    else if asyncs.any (fun h => h.fails) then
      (.error (asyncs.map (fun h => h.hid)), a)
    else
      match runSyncLoop asyncs hs with
      | .ok t => (.ok ((asyncs.map (fun h => h.hid)) ++ t), a)
      | .error t => (.error ((asyncs.map (fun h => h.hid)) ++ t), a)

/-- A Python module object as the singleton protocol sees it: `mname` and
`mdoc` are `__name__` and `__doc__` (an absent docstring modelled as `""`),
`hug` is the `__hug__` attribute, `hugServing` records presence of
`__hug_serving__`, and `hugWsgiAdapter` is the value of `__hug_wsgi__` once
it has been replaced by a server adapter (while `none`, the slot still
holds the installed `api_auto_instantiate` entry point). -/
structure PyModule where
  mname : String
  mdoc : String := ""
  hug : Option API := none
  hugServing : Bool := false
  hugWsgiAdapter : Option Nat := none
deriving DecidableEq

/-- The process state the singleton protocol operates on: `sys.modules`
keyed by module name (module identity = its key in the store), plus an
allocation counter stamping each newly constructed `API` with a distinct
`instId` — the stand-in for Python object identity. -/
structure Sys where
  modules : List (String × PyModule) := []
  nextId : Nat := 0
deriving DecidableEq

/-- `API.__init__` (api.py 82-91): when a module is given, `name` and `doc`
fall back through Python `or` chains (`name or module.__name__ or ''`) on
truthiness, i.e. on the empty string. -/
def apiInit (module : Option PyModule) (name doc : String) (cliErr : Bool) (fresh : Nat) : API :=
  match module with
  | some m =>
      { moduleName := some m.mname
        name := if name = "" then (if m.mname = "" then "" else m.mname) else name
        doc := if doc = "" then (if m.mdoc = "" then "" else m.mdoc) else doc
        cliErrorExitCodes := cliErr
        instId := fresh }
  | none =>
      { name := name, doc := doc, cliErrorExitCodes := cliErr, instId := fresh }

/-- A reference as accepted by `ModuleSingleton.__call__` (api.py 54): an
`API` instance, a live module object (identified by its key in the module
store), a module-name string, or `None`. -/
inductive Ref where
  | liveAPI (a : API)
  | modHandle (s : String)
  | modName (s : String)
  | noneRef
deriving DecidableEq

/-- Lines 65-74 of `ModuleSingleton.__call__`: when the module does not yet
carry `__hug__` in its `__dict__`, construct an `API` for it, attach it,
and install the `api_auto_instantiate` entry point as `__hug_wsgi__`; then
return `module.__hug__`.  A live module handle always exists in the store;
the `getD` fallback mirrors the string path's materialization and is
unreachable for a genuine handle. -/
def attachHug (st : Sys) (s : String) : API × Sys :=
  let m := (dget st.modules s).getD { mname := s }
  match m.hug with
  | some a => (a, st)
  | none =>
      let a := apiInit (some m) "" "" false st.nextId
      (a, { modules := dput st.modules s { m with hug := some a, hugWsgiAdapter := none },
            nextId := st.nextId + 1 })

/-- `ModuleSingleton.__call__` (api.py 54-74): an `API` argument is
returned unchanged (lines 55-56); a string is looked up in `sys.modules`,
materializing a fresh `ModuleType` under that name when absent (lines
58-61), and then treated as a module handle; `None` yields a fresh
free-standing `API` (lines 62-63); a module handle gets the module-level
`__hug__` singleton attached on first resolution (lines 65-74). -/
def resolve (st : Sys) (r : Ref) : API × Sys :=
  match r with
  | .liveAPI a => (a, st)
  | .modName s =>
      let st1 := if (dget st.modules s).isSome then st
                 else { st with modules := dput st.modules s { mname := s } }
      attachHug st1 s
  | .modHandle s => attachHug st s
  | .noneRef => (apiInit none "" "" false st.nextId, { st with nextId := st.nextId + 1 })

/-- The module attributes `api_auto_instantiate` (api.py 66-70) reads and
writes: `serving` is the presence of `__hug_serving__`, `cachedAdapter`
the server adapter stored into `__hug_wsgi__` on first call, `builds` how
many times `module.__hug__.http.server()` has been invoked.  `http.server()`
is modelled from the spec (the HTTP facet is outside src/hug/api.py): each
invocation constructs a fresh invokable adapter, stamped with the current
build count; an adapter call returns the pair (adapter, argument), showing
which adapter served the call and that arguments are forwarded unchanged. -/
structure ServeState where
  serving : Bool := false
  cachedAdapter : Option Nat := none
  builds : Nat := 0
deriving DecidableEq

/-- `api_auto_instantiate` (api.py 66-70): if `__hug_serving__` is absent,
build `module.__hug__.http.server()`, store it into `__hug_wsgi__` and set
`__hug_serving__`; then call the current `__hug_wsgi__` (now the adapter)
with the given arguments and return its result. -/
def autoInstantiate (st : ServeState) (arg : Nat) : (Nat × Nat) × ServeState :=
  let st1 := if st.serving then st
             else { serving := true, cachedAdapter := some st.builds, builds := st.builds + 1 }
  ((st1.cachedAdapter.getD 0, arg), st1)

/-- Repeated invocations of the entry point: the call results in order,
plus the final module state. -/
def runCalls (st : ServeState) : List Nat → List (Nat × Nat) × ServeState
  | [] => ([], st)
  | x :: rest =>
      let r := autoInstantiate st x
      let rs := runCalls r.2 rest
      (r.1 :: rs.1, rs.2)

/-- `API.extend` (api.py 147-158).  `api = API(api)` resolves the source
reference; for a source that is already an `API` instance the resolution is
the identity (lines 55-56), which is the shape the claim quantifies over,
so the source is taken as an `API` directly.  When the source has a
materialized HTTP facet (`hasattr(api, '_http')`), the destination's facet
is materialized through the `http` property and extended; every directive
provider of the source is re-registered via `add_directive` — an insert
into the destination's own dict under the provider's `__name__` — and every
startup handler is appended via `add_startup_handler` — an append to the
destination's own list — in original order. -/
def API.extend (a src : API) (route baseUrl : String) : API :=
  let a1 :=
    match src.http_ with
    | none => a
    | some sh =>
        let hp := API.httpProp a
        { hp.2 with http_ := some (httpExtend hp.1 sh route baseUrl) }
  let a2 := (src.overrides.map Prod.snd).foldl (fun acc d => acc.addDirective d) a1
  (src.startupHandlers).foldl (fun acc h => acc.addStartupHandler h) a2

/-- A two-registry world for stating that `extend` is a one-way copy: the
destination and the source registry, with mutations applied to the source
after the merge. -/
structure World where
  dest : API
  source : API
deriving DecidableEq

/-- `dest.extend(source, route, base_url)` inside the two-registry world. -/
def World.extendDest (w : World) (route baseUrl : String) : World :=
  { w with dest := w.dest.extend w.source route baseUrl }

/-- `source.add_directive(d)` after the merge. -/
def World.sourceAddDirective (w : World) (d : Directive) : World :=
  { w with source := w.source.addDirective d }

/-- `source.add_startup_handler(h)` after the merge. -/
def World.sourceAddStartup (w : World) (h : Handler) : World :=
  { w with source := w.source.addStartupHandler h }

/-- A registry with one synchronous, succeeding startup handler (id 7),
used to exhibit the behaviour of `_ensure_started` at a concrete input. -/
def apiC1 : API :=
  { startupHandlers_ := some [⟨7, false, false⟩] }

/-- A fresh registry on which no interface facet was ever accessed. -/
def apiC3 : API := {}

/-- A concrete destination registry for the `extend` witness. -/
def destC7 : API :=
  { startupHandlers_ := some [⟨1, false, false⟩] }

/-- A concrete source registry for the `extend` witness: one directive
override and one startup handler of its own. -/
def srcC7 : API :=
  { directives_ := some [("s", ⟨"s", 3⟩)]
    startupHandlers_ := some [⟨4, false, false⟩] }

/-! ## Helper lemmas for the startup orchestration -/

theorem handler_contains_iff (l : List Handler) (x : Handler) :
    l.contains x = true ↔ x ∈ l := by
  induction l with
  | nil => simp [List.contains]
  | cons h t ih => simp [List.contains] at ih ⊢

theorem contains_filter_isAsync (hs : List Handler) (x : Handler) (hx : x ∈ hs) :
    (hs.filter (fun h => h.isAsync)).contains x = x.isAsync := by
  cases hA : x.isAsync
  · apply Bool.eq_false_iff.mpr
    intro hc
    have hmem := (handler_contains_iff _ _).mp hc
    have := (List.mem_filter.mp hmem).2
    rw [hA] at this
    exact Bool.false_ne_true this
  · exact (handler_contains_iff _ _).mpr (List.mem_filter.mpr ⟨hx, by rw [hA]⟩)

theorem runSyncLoop_ok (asyncs : List Handler) (hs : List Handler) :
    (∀ x ∈ hs, asyncs.contains x = false → x.fails = false) →
    runSyncLoop asyncs hs =
      .ok ((hs.filter (fun x => !(asyncs.contains x))).map (fun x => x.hid)) := by
  induction hs with
  | nil => intro _; rfl
  | cons h rest ih =>
      intro hok
      have ihr := ih (fun x hx => hok x (List.mem_cons_of_mem _ hx))
      cases hc : asyncs.contains h
      · have hm : h ∉ asyncs := by
          intro hmem
          simp [(handler_contains_iff _ _).mpr hmem] at hc
          exact hc hmem
        have hf : h.fails = false := hok h (List.mem_cons_self _ _) hc
        simp [runSyncLoop, hc, hm, hf, ihr, List.filter_cons]
      · have hm : h ∈ asyncs := (handler_contains_iff _ _).mp hc
        simp [runSyncLoop, hc, hm, ihr, List.filter_cons]

theorem runSyncLoop_err (asyncs : List Handler) (x : Handler)
    (hcx : asyncs.contains x = false) (hfx : x.fails = true) :
    ∀ hs : List Handler, x ∈ hs → ∃ t, runSyncLoop asyncs hs = .error t := by
  intro hs
  induction hs with
  | nil => intro hx; cases hx
  | cons h rest ih =>
      intro hx
      have hmx : x ∉ asyncs := by
        intro hmem
        simp [(handler_contains_iff _ _).mpr hmem] at hcx
        exact hcx hmem
      rcases List.mem_cons.mp hx with rfl | hx'
      · exact ⟨[x.hid], by simp [runSyncLoop, hmx, hfx]⟩
      · obtain ⟨t, ht⟩ := ih hx'
        cases hc : asyncs.contains h
        · have hm : h ∉ asyncs := by
            intro hmem
            simp [(handler_contains_iff _ _).mpr hmem] at hc
            exact hc hmem
          cases hfh : h.fails
          · exact ⟨h.hid :: t, by simp [runSyncLoop, hm, hfh, ht]⟩
          · exact ⟨[h.hid], by simp [runSyncLoop, hm, hfh]⟩
        · have hm : h ∈ asyncs := (handler_contains_iff _ _).mp hc
          exact ⟨t, by simp [runSyncLoop, hm, ht]⟩

theorem ensureStarted_snd (a : API) : (API.ensureStarted a).2 = a := by
  unfold API.ensureStarted
  split
  · rfl
  · dsimp only
    split
    · rfl
    · split
      · rfl
      · split <;> rfl

/-! ## Claims about the startup orchestration (C1, C4, C5) -/

/-- C1: the claim states that after `_ensure_started` completes without any
handler failing, `started = true` and a second invocation invokes no
handler again.  The source of `_ensure_started` (api.py 167-177) never
assigns `self.started` (despite its docstring "Marks the API as started"),
so on `apiC1` the orchestration succeeds, leaves `started = false`, and a
second invocation re-invokes handler 7 (trace `[7]`, not `[]`). -/
theorem c1_ensure_started_never_marks_started :
    (API.ensureStarted apiC1).1 = .ok [7] ∧
    (API.ensureStarted apiC1).2 = apiC1 ∧
    (API.ensureStarted apiC1).2.started = false ∧
    (API.ensureStarted (API.ensureStarted apiC1).2).1 = .ok [7] :=
  ⟨rfl, rfl, rfl, rfl⟩

/-- C4: for every registry not yet started whose startup handlers all
succeed, the orchestration's invocation trace is exactly the asynchronous
handlers (the `gather` phase) followed by the synchronous handlers in their
original registration order — however the async handlers are interleaved in
the registration sequence.  Each invocation in the source is
`startup_handler(self)`, i.e. the registry itself is the argument. -/
theorem c4_sync_handlers_run_in_order_after_asyncs (a : API)
    (hst : a.started = false)
    (hok : ∀ h ∈ a.startupHandlers, h.fails = false) :
    (API.ensureStarted a).1 =
      .ok (((a.startupHandlers.filter (fun h => h.isAsync)).map (fun h => h.hid)) ++
           ((a.startupHandlers.filter (fun h => !h.isAsync)).map (fun h => h.hid))) := by
  have hsync : runSyncLoop (a.startupHandlers.filter (fun h => h.isAsync)) a.startupHandlers
      = .ok ((a.startupHandlers.filter (fun h => !h.isAsync)).map (fun h => h.hid)) := by
    rw [runSyncLoop_ok _ _ (fun x hx _ => hok x hx)]
    have hfe : a.startupHandlers.filter
          (fun x => !((a.startupHandlers.filter (fun h => h.isAsync)).contains x))
        = a.startupHandlers.filter (fun x => !x.isAsync) := by
      apply List.filter_congr
      intro x hx
      rw [contains_filter_isAsync _ _ hx]
    rw [hfe]
  by_cases hA : (a.startupHandlers.filter (fun h => h.isAsync)).isEmpty
  · have hnil : a.startupHandlers.filter (fun h => h.isAsync) = [] :=
      List.isEmpty_iff.mp hA
    rw [hnil] at hsync
    simp [API.ensureStarted, hst, hA, hsync, hnil]
  · have hany : (a.startupHandlers.filter (fun h => h.isAsync)).any (fun h => h.fails)
        = false := by
      apply Bool.eq_false_iff.mpr
      intro hc
      obtain ⟨x, hx, hfx⟩ := List.any_eq_true.mp hc
      rw [hok x (List.mem_filter.mp hx).1] at hfx
      exact Bool.false_ne_true hfx
    simp [API.ensureStarted, hst, hA, hany, hsync]

/-- C4 witness: registration sequence [sync 1, async 2, sync 3]: the trace
is the async handler first, then the sync handlers in registration order. -/
theorem c4_witness :
    (API.ensureStarted
      { startupHandlers_ := some [⟨1, false, false⟩, ⟨2, true, false⟩, ⟨3, false, false⟩] }).1
      = .ok [2, 1, 3] :=
  c4_sync_handlers_run_in_order_after_asyncs
    { startupHandlers_ := some [⟨1, false, false⟩, ⟨2, true, false⟩, ⟨3, false, false⟩] }
    rfl (by decide)

/-- C5: when some startup handler raises, `_ensure_started` ends in an
exception (modelled `.error`), the registry object is returned unchanged —
in particular `started` stays `false` (it was never assigned) — and because
nothing of the registry was mutated, a subsequent orchestration attempt
performs exactly the same invocations as the first: every handler is re-run
from scratch, with no per-handler completion memoization. -/
theorem c5_startup_failure_propagates_without_memoization (a : API)
    (hst : a.started = false) (x : Handler)
    (hx : x ∈ a.startupHandlers) (hfx : x.fails = true) :
    (∃ t, (API.ensureStarted a).1 = .error t) ∧
    (API.ensureStarted a).2 = a ∧
    (API.ensureStarted a).2.started = false ∧
    API.ensureStarted (API.ensureStarted a).2 = API.ensureStarted a := by
  refine ⟨?_, ensureStarted_snd a, by rw [ensureStarted_snd]; exact hst,
    by rw [ensureStarted_snd]⟩
  cases hA : x.isAsync
  · have hcx : (a.startupHandlers.filter (fun h => h.isAsync)).contains x = false := by
      rw [contains_filter_isAsync _ _ hx, hA]
    obtain ⟨t, ht⟩ := runSyncLoop_err _ x hcx hfx a.startupHandlers hx
    by_cases hE : (a.startupHandlers.filter (fun h => h.isAsync)).isEmpty
    · exact ⟨t, by simp [API.ensureStarted, hst, hE, ht]⟩
    · cases hany : (a.startupHandlers.filter (fun h => h.isAsync)).any (fun h => h.fails)
      · exact ⟨(a.startupHandlers.filter (fun h => h.isAsync)).map (fun h => h.hid) ++ t,
          by simp [API.ensureStarted, hst, hE, hany, ht]⟩
      · exact ⟨(a.startupHandlers.filter (fun h => h.isAsync)).map (fun h => h.hid),
          by simp [API.ensureStarted, hst, hE, hany]⟩
  · have hmem : x ∈ a.startupHandlers.filter (fun h => h.isAsync) :=
      List.mem_filter.mpr ⟨hx, by rw [hA]⟩
    have hE : (a.startupHandlers.filter (fun h => h.isAsync)).isEmpty = false := by
      cases hE : (a.startupHandlers.filter (fun h => h.isAsync)).isEmpty
      · rfl
      · rw [List.isEmpty_iff.mp hE] at hmem
        cases hmem
    have hany : (a.startupHandlers.filter (fun h => h.isAsync)).any (fun h => h.fails)
        = true := List.any_eq_true.mpr ⟨x, hmem, hfx⟩
    exact ⟨(a.startupHandlers.filter (fun h => h.isAsync)).map (fun h => h.hid),
      by simp [API.ensureStarted, hst, hE, hany]⟩

/-- C5 witness: handlers [sync 1 (succeeds), sync 9 (raises)]: the run ends
in an exception, the registry is unchanged with `started = false`, and a
retry performs the identical invocation sequence. -/
theorem c5_witness :
    (∃ t, (API.ensureStarted
        { startupHandlers_ := some [⟨1, false, false⟩, ⟨9, false, true⟩] }).1 = .error t) ∧
    (API.ensureStarted
        { startupHandlers_ := some [⟨1, false, false⟩, ⟨9, false, true⟩] }).2
      = { startupHandlers_ := some [⟨1, false, false⟩, ⟨9, false, true⟩] } ∧
    (API.ensureStarted
        { startupHandlers_ := some [⟨1, false, false⟩, ⟨9, false, true⟩] }).2.started = false ∧
    API.ensureStarted (API.ensureStarted
        { startupHandlers_ := some [⟨1, false, false⟩, ⟨9, false, true⟩] }).2
      = API.ensureStarted
        { startupHandlers_ := some [⟨1, false, false⟩, ⟨9, false, true⟩] } :=
  c5_startup_failure_propagates_without_memoization
    { startupHandlers_ := some [⟨1, false, false⟩, ⟨9, false, true⟩] }
    rfl ⟨9, false, true⟩ (by decide) rfl

/-! ## Helper lemmas for the dict model -/

theorem dget_dput {α : Type} (d : List (String × α)) (k : String) (v : α) (q : String) :
    dget (dput d k v) q = if q = k then some v else dget d q := by
  induction d with
  | nil =>
      by_cases hq : q = k
      · subst hq; simp [dput, dget]
      · simp [dput, dget, hq, Ne.symm hq]
  | cons p rest ih =>
      by_cases hp : p.1 = k
      · rw [dput, if_pos hp]
        by_cases hq : q = k
        · subst hq; simp [dget]
        · have hpq : p.1 ≠ q := by rw [hp]; exact Ne.symm hq
          simp [dget, hq, Ne.symm hq, hpq]
      · rw [dput, if_neg hp]
        by_cases hpq : p.1 = q
        · have hqk : q ≠ k := fun h => hp (hpq.trans h)
          simp [dget, hpq, hqk]
        · simp [dget, hpq, ih]

theorem dget_isSome_iff {α : Type} (d : List (String × α)) (k : String) :
    (dget d k).isSome = true ↔ k ∈ dictKeys d := by
  induction d with
  | nil => simp [dget, dictKeys]
  | cons p rest ih =>
      by_cases hp : p.1 = k
      · simp [dget, dictKeys, hp]
      · simp [dget, dictKeys, hp, Ne.symm hp, ih]

theorem lastBind_isSome_iff {α : Type} (d : List (String × α)) (k : String) :
    (lastBind d k).isSome = true ↔ k ∈ dictKeys d := by
  induction d with
  | nil => simp [lastBind, dictKeys]
  | cons p rest ih =>
      have hkeys : dictKeys (p :: rest) = p.1 :: dictKeys rest := rfl
      rw [hkeys, List.mem_cons]
      cases hlb : lastBind rest k
      · rw [hlb] at ih
        simp only [Option.isSome_none, Bool.false_eq_true, false_iff] at ih
        by_cases hp : p.1 = k
        · subst hp
          simp [lastBind, hlb]
        · simp [lastBind, hlb, hp, Ne.symm hp, ih]
      · rw [hlb] at ih
        have hk : k ∈ dictKeys rest := ih.mp rfl
        simp [lastBind, hlb, hk]

theorem ofirst_some {α : Type} (v : α) (y : Option α) : ofirst (some v) y = some v := rfl

theorem ofirst_none {α : Type} (y : Option α) : ofirst none y = y := rfl

theorem ofirst_none_right {α : Type} (x : Option α) : ofirst x none = x := by
  cases x <;> rfl

theorem dget_foldl_dput {α : Type} (l : List (String × α)) (k : String) :
    ∀ init, dget (l.foldl (fun acc p => dput acc p.1 p.2) init) k =
      ofirst (lastBind l k) (dget init k) := by
  induction l with
  | nil => intro init; simp [lastBind, ofirst]
  | cons p rest ih =>
      intro init
      rw [List.foldl_cons, ih]
      cases hlb : lastBind rest k
      · by_cases hp : p.1 = k
        · simp [lastBind, hlb, dget_dput, hp, ofirst]
        · simp [lastBind, hlb, dget_dput, hp, Ne.symm hp, ofirst]
      · simp [lastBind, hlb, ofirst]

theorem lastBind_append {α : Type} (l₁ l₂ : List (String × α)) (k : String) :
    lastBind (l₁ ++ l₂) k = ofirst (lastBind l₂ k) (lastBind l₁ k) := by
  induction l₁ with
  | nil =>
      rw [List.nil_append]
      cases h : lastBind l₂ k <;> simp [lastBind, h, ofirst]
  | cons p rest ih =>
      rw [List.cons_append, lastBind, ih]
      cases lastBind l₂ k <;> cases hlr : lastBind rest k <;>
        simp [lastBind, hlr, ofirst]

theorem lastBind_eq_dget {α : Type} (d : List (String × α))
    (hd : (dictKeys d).Nodup) (k : String) :
    lastBind d k = dget d k := by
  induction d with
  | nil => rfl
  | cons p rest ih =>
      have hp : p.1 ∉ dictKeys rest :=
        (List.nodup_cons.mp (by simpa [dictKeys] using hd)).1
      have hrest : (dictKeys rest).Nodup :=
        (List.nodup_cons.mp (by simpa [dictKeys] using hd)).2
      cases hlb : lastBind rest k
      · have hdg : dget rest k = none := by rw [← ih hrest, hlb]
        by_cases hpk : p.1 = k
        · simp [lastBind, dget, hlb, hpk, hdg]
        · simp [lastBind, dget, hlb, hpk, hdg]
      · rename_i v
        have hk : k ∈ dictKeys rest := (lastBind_isSome_iff rest k).mp (by simp [hlb])
        have hpk : p.1 ≠ k := fun hh => hp (hh ▸ hk)
        simp only [lastBind, dget, hlb, hpk, if_false]
        rw [← ih hrest, hlb]

theorem hug_names_inj (m n : String) : ("hug_" ++ m = "hug_" ++ n) ↔ m = n := by
  constructor
  · intro h
    have h2 := congrArg String.data h
    rw [String.data_append, String.data_append] at h2
    exact String.ext (List.append_cancel_left h2)
  · intro h; rw [h]

/-! ## Lemmas about `directives()` -/

theorem lastBind_mapHug {α : Type} (l : List (String × α)) (n : String) :
    lastBind (l.map (fun p => ("hug_" ++ p.1, p.2))) ("hug_" ++ n) = lastBind l n := by
  induction l with
  | nil => rfl
  | cons p rest ih =>
      rw [List.map_cons, lastBind, lastBind, ih]
      cases lastBind rest n
      · simp [hug_names_inj]
      · simp

theorem keys_mapHug {α : Type} (l : List (String × α)) :
    dictKeys (l.map (fun p => ("hug_" ++ p.1, p.2)))
      = l.map (fun p => "hug_" ++ p.1) := by
  simp [dictKeys, List.map_map]

theorem mem_keys_directives (catalog : List (String × Directive)) (a : API) (k : String) :
    k ∈ dictKeys (API.directives catalog a) ↔
      ∃ n, k = "hug_" ++ n ∧ (n ∈ dictKeys catalog ∨ n ∈ dictKeys a.overrides) := by
  unfold API.directives
  rw [← dget_isSome_iff, dget_foldl_dput]
  have hnil : dget ([] : List (String × Directive)) k = none := rfl
  rw [hnil, ofirst_none_right, lastBind_isSome_iff, keys_mapHug]
  constructor
  · intro hk
    obtain ⟨p, hp, hpk⟩ := List.mem_map.mp hk
    refine ⟨p.1, hpk.symm, ?_⟩
    rcases List.mem_append.mp hp with h | h
    · exact Or.inl (List.mem_map.mpr ⟨p, h, rfl⟩)
    · exact Or.inr (List.mem_map.mpr ⟨p, h, rfl⟩)
  · rintro ⟨n, rfl, hn | hn⟩
    · obtain ⟨p, hp, hpn⟩ := List.mem_map.mp hn
      exact List.mem_map.mpr ⟨p, List.mem_append.mpr (Or.inl hp), by rw [hpn]⟩
    · obtain ⟨p, hp, hpn⟩ := List.mem_map.mp hn
      exact List.mem_map.mpr ⟨p, List.mem_append.mpr (Or.inr hp), by rw [hpn]⟩

theorem dget_directives_override (catalog : List (String × Directive)) (a : API)
    (n : String) (v : Directive)
    (ho : (dictKeys a.overrides).Nodup) (h : dget a.overrides n = some v) :
    dget (API.directives catalog a) ("hug_" ++ n) = some v := by
  unfold API.directives
  rw [dget_foldl_dput, List.map_append, lastBind_append, lastBind_mapHug,
    lastBind_eq_dget _ ho, h, ofirst_some, ofirst_some]

theorem dget_directives_catalog (catalog : List (String × Directive)) (a : API)
    (n : String)
    (hc : (dictKeys catalog).Nodup) (ho : (dictKeys a.overrides).Nodup)
    (h : dget a.overrides n = none) :
    dget (API.directives catalog a) ("hug_" ++ n) = dget catalog n := by
  unfold API.directives
  rw [dget_foldl_dput, List.map_append, lastBind_append, lastBind_mapHug,
    lastBind_eq_dget _ ho, h, ofirst_none, lastBind_mapHug, lastBind_eq_dget _ hc]
  exact ofirst_none_right _

/-! ## Claims about directive resolution (C6, C8, C10) -/

/-- C6: `directive(name, default)` resolves the instance override when one
exists (even when the catalog also binds the name — the override is
consulted first), otherwise the catalog entry, otherwise the given default;
being a total function of its inputs, it raises for no name. -/
theorem c6_directive_checks_override_then_catalog_then_default
    (catalog : List (String × Directive)) (a : API) (n : String) (d : Directive) :
    (∀ v, dget a.overrides n = some v → API.directive catalog a n d = v) ∧
    (∀ w, dget a.overrides n = none → dget catalog n = some w →
        API.directive catalog a n d = w) ∧
    (dget a.overrides n = none → dget catalog n = none →
        API.directive catalog a n d = d) := by
  refine ⟨?_, ?_, ?_⟩
  · intro v hv
    simp [API.directive, hv]
  · intro w hv hw
    simp [API.directive, hv, hw]
  · intro hv hw
    simp [API.directive, hv, hw]

/-- C6 witness: catalog binds `timer` to provider 1, the instance override
binds it to provider 2: resolution returns the override. -/
theorem c6_witness :
    API.directive [("timer", ⟨"timer", 1⟩)]
        { directives_ := some [("timer", ⟨"timer", 2⟩)] } "timer" ⟨"d", 0⟩
      = ⟨"timer", 2⟩ :=
  (c6_directive_checks_override_then_catalog_then_default
      [("timer", ⟨"timer", 1⟩)] { directives_ := some [("timer", ⟨"timer", 2⟩)] }
      "timer" ⟨"d", 0⟩).1 ⟨"timer", 2⟩ (by decide)

/-- C8: `directives()` returns a mapping whose keys are exactly the catalog
names united with the instance-override names, each prefixed with the fixed
`hug_` namespace tag; on a name bound in both, the value is the instance
override's provider, and on a name bound only in the catalog it is the
catalog's provider. -/
theorem c8_directives_prefixed_union_override_wins
    (catalog : List (String × Directive)) (a : API)
    (hc : (dictKeys catalog).Nodup) (ho : (dictKeys a.overrides).Nodup) :
    (∀ k, k ∈ dictKeys (API.directives catalog a) ↔
        ∃ n, k = "hug_" ++ n ∧ (n ∈ dictKeys catalog ∨ n ∈ dictKeys a.overrides)) ∧
    (∀ n v, dget a.overrides n = some v →
        dget (API.directives catalog a) ("hug_" ++ n) = some v) ∧
    (∀ n, dget a.overrides n = none →
        dget (API.directives catalog a) ("hug_" ++ n) = dget catalog n) :=
  ⟨fun k => mem_keys_directives catalog a k,
   fun n v hv => dget_directives_override catalog a n v ho hv,
   fun n hv => dget_directives_catalog catalog a n hc ho hv⟩

/-- C8 witness: catalog `{x ↦ provider 1}`, overrides `{x ↦ provider 2,
y ↦ provider 3}`: the merged mapping binds `hug_x` to the override's
provider and `hug_y` to provider 3, and `hug_y` is among the keys. -/
theorem c8_witness :
    dget (API.directives [("x", ⟨"x", 1⟩)]
        { directives_ := some [("x", ⟨"x", 2⟩), ("y", ⟨"y", 3⟩)] }) ("hug_" ++ "x")
      = some ⟨"x", 2⟩ ∧
    ("hug_" ++ "y") ∈ dictKeys (API.directives [("x", ⟨"x", 1⟩)]
        { directives_ := some [("x", ⟨"x", 2⟩), ("y", ⟨"y", 3⟩)] }) :=
  ⟨(c8_directives_prefixed_union_override_wins [("x", ⟨"x", 1⟩)]
      { directives_ := some [("x", ⟨"x", 2⟩), ("y", ⟨"y", 3⟩)] }
      (by decide) (by decide)).2.1 "x" ⟨"x", 2⟩ (by decide),
   ((c8_directives_prefixed_union_override_wins [("x", ⟨"x", 1⟩)]
      { directives_ := some [("x", ⟨"x", 2⟩), ("y", ⟨"y", 3⟩)] }
      (by decide) (by decide)).1 ("hug_" ++ "y")).mpr
      ⟨"y", rfl, Or.inr (by decide)⟩⟩

/-- C10: single-name lookup through `directive` takes unprefixed names: for
a name `n` bound in the catalog and not overridden — with the prefixed name
`hug_ ++ n` itself bound in neither the overrides nor the catalog —
`directive n d` returns the catalog provider while `directive ('hug_'+n) d`
returns the fallback `d`, even though `hug_ ++ n` is among the keys that
`directives()` exposes. -/
theorem c10_directive_takes_unprefixed_names
    (catalog : List (String × Directive)) (a : API) (n : String) (d v : Directive)
    (h1 : dget catalog n = some v)
    (h2 : dget a.overrides n = none)
    (h3 : dget a.overrides ("hug_" ++ n) = none)
    (h4 : dget catalog ("hug_" ++ n) = none) :
    API.directive catalog a n d = v ∧
    API.directive catalog a ("hug_" ++ n) d = d ∧
    ("hug_" ++ n) ∈ dictKeys (API.directives catalog a) := by
  refine ⟨?_, ?_, ?_⟩
  · simp [API.directive, h1, h2]
  · simp [API.directive, h3, h4]
  · exact (mem_keys_directives catalog a ("hug_" ++ n)).mpr
      ⟨n, rfl, Or.inl ((dget_isSome_iff catalog n).mp (by simp [h1]))⟩

/-- C10 witness: catalog `{x ↦ provider 1}`, no overrides: `directive "x"`
resolves the catalog provider, `directive "hug_x"` falls back to the
default, yet `hug_x` is a key of `directives()`. -/
theorem c10_witness :
    API.directive [("x", ⟨"x", 1⟩)] {} "x" ⟨"d", 0⟩ = ⟨"x", 1⟩ ∧
    API.directive [("x", ⟨"x", 1⟩)] {} ("hug_" ++ "x") ⟨"d", 0⟩ = ⟨"d", 0⟩ ∧
    ("hug_" ++ "x") ∈ dictKeys (API.directives [("x", ⟨"x", 1⟩)] {}) :=
  c10_directive_takes_unprefixed_names [("x", ⟨"x", 1⟩)] {} "x" ⟨"d", 0⟩ ⟨"x", 1⟩
    (by decide) (by decide) (by decide) (by decide)

/-- C3: the claim states `handlers()` yields exactly the handlers of the
already-materialized facets without raising.  The source (api.py 108, 110)
calls `getattr(self, '_http')` and `getattr(self, '_cli')` with no default,
so on a registry where a facet slot was never assigned the generator raises
`AttributeError` instead of yielding nothing: on the fresh registry
`apiC3` iteration raises immediately; with only `_http` materialized it
yields the HTTP handlers and then raises; only when both facets are
materialized does it complete normally with their handlers.  (The source
generator assigns no attribute, so it indeed creates no facet.) -/
theorem c3_handlers_raises_when_facet_unset :
    API.handlersGen apiC3 = ⟨[], true⟩ ∧
    apiC3.http_ = none ∧ apiC3.cli_ = none ∧
    API.handlersGen { apiC3 with http_ := some ⟨[5]⟩ } = ⟨[5], true⟩ ∧
    API.handlersGen { apiC3 with http_ := some ⟨[5]⟩, cli_ := some ⟨[6], false⟩ }
      = ⟨[5, 6], false⟩ :=
  ⟨rfl, rfl, rfl, rfl, rfl⟩

/-! ## Lemmas about the singleton resolution protocol -/

theorem attachHug_attached (st : Sys) (s : String) :
    ∃ m, dget (attachHug st s).2.modules s = some m ∧
      m.hug = some (attachHug st s).1 := by
  cases hm : dget st.modules s
  · exact ⟨⟨s, "", some (apiInit (some ⟨s, "", none, false, none⟩) "" "" false st.nextId),
        false, none⟩,
      by simp [attachHug, hm, dget_dput], by simp [attachHug, hm]⟩
  · rename_i m
    cases hh : m.hug
    · exact ⟨⟨m.mname, m.mdoc, some (apiInit (some m) "" "" false st.nextId),
          m.hugServing, none⟩,
        by simp [attachHug, hm, hh, dget_dput], by simp [attachHug, hm, hh]⟩
    · rename_i a
      exact ⟨m, by simp [attachHug, hm, hh], by simp [attachHug, hm, hh]⟩

theorem attachHug_of_attached (st : Sys) (s : String) (m : PyModule) (a : API)
    (hm : dget st.modules s = some m) (hh : m.hug = some a) :
    attachHug st s = (a, st) := by
  simp [attachHug, hm, hh]

theorem resolve_attached (st : Sys) (s : String) (r : Ref)
    (h : r = Ref.modHandle s ∨ r = Ref.modName s) :
    ∃ m, dget (resolve st r).2.modules s = some m ∧
      m.hug = some (resolve st r).1 := by
  rcases h with rfl | rfl
  · exact attachHug_attached st s
  · unfold resolve
    exact attachHug_attached _ s

theorem resolve_of_attached (st : Sys) (s : String) (r : Ref) (m : PyModule) (a : API)
    (hm : dget st.modules s = some m) (hh : m.hug = some a)
    (h : r = Ref.modHandle s ∨ r = Ref.modName s) :
    resolve st r = (a, st) := by
  rcases h with rfl | rfl
  · exact attachHug_of_attached st s m a hm hh
  · show attachHug (if (dget st.modules s).isSome = true then st
        else { st with modules := dput st.modules s { mname := s } }) s = (a, st)
    rw [hm]
    simp only [Option.isSome_some, if_true]
    exact attachHug_of_attached st s m a hm hh

/-! ## Claim about singleton resolution (C2) -/

/-- C2: resolving a reference that is already a Registry returns that very
object with no state change, and two successive resolutions of references
to the same owning module (by live handle or by name, in any combination)
return one and the same `API` instance — the second resolution returns
exactly the first's result and leaves the process state untouched. -/
theorem c2_resolution_is_singleton (st : Sys) (a : API) (s : String) (r1 r2 : Ref)
    (h1 : r1 = Ref.modHandle s ∨ r1 = Ref.modName s)
    (h2 : r2 = Ref.modHandle s ∨ r2 = Ref.modName s) :
    resolve st (Ref.liveAPI a) = (a, st) ∧
    resolve (resolve st r1).2 r2 = ((resolve st r1).1, (resolve st r1).2) := by
  obtain ⟨m, hm, hh⟩ := resolve_attached st s r1 h1
  exact ⟨rfl, resolve_of_attached _ s r2 m _ hm hh h2⟩

/-- C2 witness: in an empty process state, resolve module name "m", then
resolve a live handle to the same module: the same registry instance comes
back and the state is unchanged; resolving a Registry is the identity. -/
theorem c2_witness :
    resolve ⟨[], 0⟩ (Ref.liveAPI {}) = ({}, ⟨[], 0⟩) ∧
    resolve (resolve ⟨[], 0⟩ (Ref.modName "m")).2 (Ref.modHandle "m")
      = ((resolve ⟨[], 0⟩ (Ref.modName "m")).1, (resolve ⟨[], 0⟩ (Ref.modName "m")).2) :=
  c2_resolution_is_singleton ⟨[], 0⟩ {} "m" (Ref.modName "m") (Ref.modHandle "m")
    (Or.inr rfl) (Or.inl rfl)

/-! ## Claim about the lazily-installed entry point (C9) -/

/-- C9: starting from a module on which the entry point was just installed
(`__hug_serving__` absent, no adapter cached, no server built), any
non-empty sequence of calls builds `http.server()` exactly once — on the
first call — caches the resulting adapter on the unit, and every call's
result is the cached adapter applied to that call's own argument. -/
theorem c9_entry_point_builds_server_once (args : List Nat) (hne : args ≠ []) :
    (runCalls {} args).2.builds = 1 ∧
    (runCalls {} args).2.cachedAdapter = some 0 ∧
    (runCalls {} args).1 = args.map (fun x => (0, x)) := by
  cases args with
  | nil => cases hne rfl
  | cons x rest =>
      have key : ∀ l, runCalls ⟨true, some 0, 1⟩ l
          = (l.map (fun y => (0, y)), ⟨true, some 0, 1⟩) := by
        intro l
        induction l with
        | nil => rfl
        | cons y t ih => simp [runCalls, autoInstantiate, ih]
      simp [runCalls, autoInstantiate, key rest]

/-- C9 witness: two calls with arguments 10 and 20: one server build, the
adapter cached, and both results produced by that one adapter on the
forwarded arguments. -/
theorem c9_witness :
    (runCalls {} [10, 20]).2.builds = 1 ∧
    (runCalls {} [10, 20]).2.cachedAdapter = some 0 ∧
    (runCalls {} [10, 20]).1 = [(0, 10), (0, 20)] :=
  c9_entry_point_builds_server_once [10, 20] (by decide)

/-! ## Lemmas about `extend` -/

theorem mem_keys_foldl_dput {α : Type} (l : List (String × α))
    (init : List (String × α)) (k : String) :
    k ∈ dictKeys (l.foldl (fun acc p => dput acc p.1 p.2) init) ↔
      k ∈ dictKeys init ∨ k ∈ dictKeys l := by
  rw [← dget_isSome_iff, dget_foldl_dput]
  cases hlb : lastBind l k
  · have hk : ¬ k ∈ dictKeys l := by
      rw [← lastBind_isSome_iff, hlb]
      simp
    simp [ofirst, dget_isSome_iff, hk]
  · have hk : k ∈ dictKeys l := (lastBind_isSome_iff l k).mp (by simp [hlb])
    simp [ofirst, hk]

theorem startupHandlers_addStartupHandler (a : API) (h : Handler) :
    (a.addStartupHandler h).startupHandlers = a.startupHandlers ++ [h] := by
  unfold API.addStartupHandler
  cases hE : a.startupHandlers.isEmpty
  · simp [API.startupHandlers, hE]
  · have h0 : a.startupHandlers = [] := List.isEmpty_iff.mp hE
    simp only [API.startupHandlers] at h0
    simp [API.startupHandlers, hE, h0]

theorem overrides_foldl_addDirective (l : List Directive) (a : API) :
    (l.foldl (fun acc d => acc.addDirective d) a).overrides
      = (l.map (fun d => (d.name, d))).foldl (fun acc p => dput acc p.1 p.2) a.overrides := by
  induction l generalizing a with
  | nil => rfl
  | cons d t ih =>
      rw [List.foldl_cons, List.map_cons, List.foldl_cons, ih]
      rfl

theorem startupHandlers_foldl_addDirective (l : List Directive) (a : API) :
    (l.foldl (fun acc d => acc.addDirective d) a).startupHandlers = a.startupHandlers := by
  induction l generalizing a with
  | nil => rfl
  | cons d t ih =>
      rw [List.foldl_cons, ih]
      rfl

theorem startupHandlers_foldl_addStartup (l : List Handler) (a : API) :
    (l.foldl (fun acc h => acc.addStartupHandler h) a).startupHandlers
      = a.startupHandlers ++ l := by
  induction l generalizing a with
  | nil => simp
  | cons h t ih =>
      rw [List.foldl_cons, ih, startupHandlers_addStartupHandler]
      simp

theorem overrides_addStartupHandler (a : API) (h : Handler) :
    (a.addStartupHandler h).overrides = a.overrides := rfl

theorem overrides_foldl_addStartup (l : List Handler) (a : API) :
    (l.foldl (fun acc h => acc.addStartupHandler h) a).overrides = a.overrides := by
  induction l generalizing a with
  | nil => rfl
  | cons h t ih =>
      rw [List.foldl_cons, ih, overrides_addStartupHandler]

theorem extend_startupHandlers (a src : API) (route baseUrl : String) :
    (API.extend a src route baseUrl).startupHandlers
      = a.startupHandlers ++ src.startupHandlers := by
  unfold API.extend
  rw [startupHandlers_foldl_addStartup, startupHandlers_foldl_addDirective]
  cases hs : src.http_
  · rfl
  · cases hh : a.http_ <;> simp [API.httpProp, API.startupHandlers, hh]

theorem extend_overrides (a src : API) (route baseUrl : String) :
    (API.extend a src route baseUrl).overrides
      = ((src.overrides.map Prod.snd).map (fun d => (d.name, d))).foldl
          (fun acc p => dput acc p.1 p.2) a.overrides := by
  unfold API.extend
  rw [overrides_foldl_addStartup, overrides_foldl_addDirective]
  cases hs : src.http_
  · rfl
  · cases hh : a.http_ <;> simp [API.httpProp, API.overrides, hh]

/-! ## Claim about the merge (C7) -/

/-- C7: after `extend(dest, source, route, baseUrl)` — over registries whose
override dicts key each provider under its own `__name__`, the invariant
`add_directive` maintains — every directive name of the source's overrides
(in particular each name present only there) appears, `hug_`-prefixed,
among the keys of the destination's `directives()`; the source's startup
handlers are appended to the destination's in their original order; and the
merge is a one-way copy: `add_directive` and `add_startup_handler` insert
element-wise into destination-owned containers (which the state-passing
embedding mirrors), so mutating the source registry afterwards — adding a
directive or a startup handler to it — leaves the destination exactly as
the merge produced it. -/
theorem c7_extend_copies_directives_and_handlers_one_way
    (catalog : List (String × Directive)) (dest src : API) (route baseUrl : String)
    (hwf : ∀ p ∈ src.overrides, p.1 = p.2.name) :
    (∀ n, n ∈ dictKeys src.overrides →
        ("hug_" ++ n) ∈ dictKeys (API.directives catalog (API.extend dest src route baseUrl))) ∧
    (API.extend dest src route baseUrl).startupHandlers
        = dest.startupHandlers ++ src.startupHandlers ∧
    (∀ (w : World) (d : Directive) (h : Handler),
        (((w.extendDest route baseUrl).sourceAddDirective d).sourceAddStartup h).dest
          = (w.extendDest route baseUrl).dest) := by
  refine ⟨?_, extend_startupHandlers dest src route baseUrl, fun w d h => rfl⟩
  intro n hn
  apply (mem_keys_directives catalog _ ("hug_" ++ n)).mpr
  refine ⟨n, rfl, Or.inr ?_⟩
  rw [extend_overrides, mem_keys_foldl_dput]
  right
  have hkeys : dictKeys ((src.overrides.map Prod.snd).map (fun d => (d.name, d)))
      = src.overrides.map (fun p => p.2.name) := by
    simp [dictKeys, List.map_map]
  rw [hkeys]
  unfold dictKeys at hn
  obtain ⟨p, hp, hfst⟩ := List.mem_map.mp hn
  exact List.mem_map.mpr ⟨p, hp, by rw [← hwf p hp]; exact hfst⟩

/-- C7 witness: destination with one startup handler, source with one
directive override `s` and one startup handler: after the merge, `hug_s`
is a key of the destination's `directives()` and the handler sequence is
the destination's followed by the source's. -/
theorem c7_witness :
    ("hug_" ++ "s") ∈ dictKeys (API.directives [] (API.extend destC7 srcC7 "" "")) ∧
    (API.extend destC7 srcC7 "" "").startupHandlers
      = [⟨1, false, false⟩, ⟨4, false, false⟩] :=
  ⟨(c7_extend_copies_directives_and_handlers_one_way [] destC7 srcC7 "" ""
      (by decide)).1 "s" (by decide),
   (c7_extend_copies_directives_and_handlers_one_way [] destC7 srcC7 "" ""
      (by decide)).2.1⟩
